import Mathlib

/-!
Verification of the full-text project search subsystem of the IG Publisher
Manager (src/search.js) against its natural-language specification.

The JavaScript code is shallowly embedded: the filesystem is a finite tree
of directories and files (a file's content is `none` when the file is
unreadable), paths are lists of name components, and the regular expressions
produced by `createSearchPattern` are interpreted by a small matcher covering
exactly the fragment that function emits (escaped literal characters and the
word-boundary assertion `\b`).  JavaScript's stateful `lastIndex` on
global-flag regexes is modelled explicitly where the source relies on it
(the result-sort comparator).
-/

namespace IGSearch

/-- A filesystem path, as a list of name components relative to the model root. -/
abbrev FsPath := List String

/-- The filesystem, flattened: a list of files (path and content, `none`
modelling an unreadable file) in the order directory listings present them,
and a list of the directories that exist. -/
structure FS where
  files : List (FsPath × Option String)
  dirs : List FsPath

/-- Whether a path names a file. -/
def isFilePath (fs : FS) (p : FsPath) : Bool :=
  (fs.files.find? (fun e => e.1 == p)).isSome

/-- Whether a path names a directory (the stat `isDirectory` test). -/
def isDirPath (fs : FS) (p : FsPath) : Bool :=
  fs.dirs.contains p

/-- Model of `fs.existsSync`. -/
def existsSync (fs : FS) (p : FsPath) : Bool :=
  isFilePath fs p || isDirPath fs p

/-- Model of `fs.readFileSync`: succeeds only on a readable file. -/
def readFileSync (fs : FS) (p : FsPath) : Except String String :=
  match fs.files.find? (fun e => e.1 == p) with
  | some (_, some content) => .ok content
  | _ => .error "EIO"

/-- The names `readdirSync` lists for a directory: the last components of the
declared files and directories lying directly below it, in declaration order
(files first), without duplicates. -/
def childNames (fs : FS) (d : FsPath) : List String :=
  (((fs.files.map (fun e => e.1)) ++ fs.dirs).filterMap (fun p =>
    if p.length = d.length + 1 && d.isPrefixOf p then p.getLast? else none)).dedup

/-- An upper bound on the depth of any declared path, used as walker fuel. -/
def maxPathLen (fs : FS) : Nat :=
  ((fs.files.map (fun e => e.1.length)) ++ fs.dirs.map List.length).foldr max 0

/-- Model of `path.basename` on a component list. -/
def basename (p : FsPath) : String :=
  p.getLast?.getD ""

/-- Split a character list on a separator character, as `String.prototype.split`
with a one-character separator ("".split gives one empty piece). -/
def splitOnChar (sep : Char) : List Char → List (List Char)
  | [] => [[]]
  | c :: rest =>
    let r := splitOnChar sep rest
    if c = sep then [] :: r
    else
      match r with
      | [] => [[c]]
      | h :: t => (c :: h) :: t

/-- String-level wrapper for `splitOnChar` (used for the line split on newline). -/
def jsSplit (sep : Char) (s : String) : List String :=
  (splitOnChar sep s.data).map String.mk

/-- The whitespace characters removed by `String.prototype.trim` (ASCII part). -/
def jsIsSpace (c : Char) : Bool :=
  c = ' ' || c = '\t' || c = '\n' || c = '\r' || c.toNat = 11 || c.toNat = 12

/-- Model of `String.prototype.trim`: strip leading and trailing whitespace. -/
def jsTrim (s : String) : String :=
  String.mk (((s.data.dropWhile jsIsSpace).reverse.dropWhile jsIsSpace).reverse)

/-- Model of `String.prototype.toLowerCase` (ASCII letters). -/
def jsToLower (s : String) : String :=
  String.mk (s.data.map Char.toLower)

/-- Model of `String.prototype.startsWith`. -/
def jsStartsWith (s pre : String) : Bool :=
  pre.data.isPrefixOf s.data

/-- Join path components with slashes, as `path.relative` renders a relative path. -/
def joinPath (l : List String) : String :=
  String.mk (((l.map (fun q => q.data)).intersperse ['/']).flatten)

/-- Index of the last dot in a character list, if any. -/
def lastDotIdx (cs : List Char) : Option Nat :=
  ((cs.enum.filter (fun q => q.2 = '.')).map (fun q => q.1)).getLast?

/-- Model of `path.extname` applied to a base name: the suffix starting at the
last dot, except that a dot at position 0 (a leading-dot file) yields the
empty extension, as in Node. -/
def extname (b : String) : String :=
  match lastDotIdx b.data with
  | none => ""
  | some 0 => ""
  | some i => String.mk (b.data.drop i)

/-- The characters escaped by `createSearchPattern`, i.e. the character class
in the source's replace call: . * + ? ^ $ ( ) | [ ] \ and the two braces
(written via their code points to keep them out of the source text). -/
def isMeta (c : Char) : Bool :=
  ['.', '*', '+', '?', '^', '$', '(', ')', '|', '[', ']', '\\'].contains c
  || c = Char.ofNat 123 || c = Char.ofNat 125

/-- Escape one character as the source's `replace(/[.*+?^${}()|[\]\\]/g, '\\$&')`
does: metacharacters gain a leading backslash, all others pass through. -/
def escChar (c : Char) : List Char :=
  if isMeta c then ['\\', c] else [c]

/-- Model of the escaping step of `createSearchPattern`. -/
def escapeRegExp (s : String) : String :=
  String.mk (s.data.map escChar).flatten

/-- A compiled JavaScript regular expression: its source text and flag string. -/
structure JSRegExp where
  source : String
  flags : String
deriving DecidableEq, Repr

/-- Model of `createSearchPattern` (src/search.js lines 155-164): escape the
term, optionally wrap it in word-boundary assertions, and pick the flags. -/
def createSearchPattern (searchTerm : String) (caseSensitive wholeWords : Bool) : JSRegExp :=
  let escapedTerm := escapeRegExp searchTerm
  let escapedTerm := if wholeWords then "\\b" ++ escapedTerm ++ "\\b" else escapedTerm
  let flags := if caseSensitive then "g" else "gi"
  ⟨escapedTerm, flags⟩

/-- A token of the regex fragment produced by `createSearchPattern`: a literal
character or a word-boundary assertion. -/
inductive Tok where
  | lit (c : Char)
  | wordB
deriving DecidableEq, Repr

/-- Parse the pattern source text into tokens.  Only the fragment that
`createSearchPattern` can emit is accepted: a backslash followed by `b` is a
word boundary, a backslash followed by a metacharacter is that literal
character, and a bare non-metacharacter stands for itself; anything else is
rejected. -/
def parseToks : List Char → Option (List Tok)
  | [] => some []
  | c :: rest =>
    if c = '\\' then
      match rest with
      | [] => none
      | d :: rest2 =>
        if d = 'b' then (parseToks rest2).map (fun ts => Tok.wordB :: ts)
        else if isMeta d then (parseToks rest2).map (fun ts => Tok.lit d :: ts)
        else none
    else if isMeta c then none
    else (parseToks rest).map (fun ts => Tok.lit c :: ts)

/-- Compile a JSRegExp of the emitted fragment to tokens. -/
def compile (p : JSRegExp) : Option (List Tok) :=
  parseToks p.source.data

/-- Character canonicalisation: lower-casing when the `i` flag is set (the
ASCII restriction of JavaScript's canonicalisation). -/
def canon (ic : Bool) (c : Char) : Char :=
  if ic then c.toLower else c

/-- JavaScript word characters `[A-Za-z0-9_]`, as tested by `\b`. -/
def isWordChar (c : Char) : Bool :=
  c.isAlpha || c.isDigit || c = '_'

/-- Whether the character at index `i` exists and is a word character. -/
def wordAt (s : List Char) (i : Nat) : Bool :=
  match s[i]? with
  | some c => isWordChar c
  | none => false

/-- JavaScript `\b`: a word boundary sits at `i` when exactly one of the
character before `i` and the character at `i` is a word character. -/
def atBoundary (s : List Char) (i : Nat) : Bool :=
  (if i = 0 then false else wordAt s (i - 1)) != wordAt s i

/-- Match a token list against `s` starting at index `i`; returns the end
index of the match if the whole token list matches there. -/
def matchToksAt (ic : Bool) : List Tok → List Char → Nat → Option Nat
  | [], _, i => some i
  | .lit c :: rest, s, i =>
    match s[i]? with
    | some d => if canon ic d = canon ic c then matchToksAt ic rest s (i + 1) else none
    | none => none
  | .wordB :: rest, s, i =>
    if atBoundary s i then matchToksAt ic rest s i else none

/-- Worker for `searchFrom`; the fuel argument only drives termination and is
always supplied as the number of remaining start positions. -/
def searchFromFuel (ic : Bool) (toks : List Tok) (s : List Char) : Nat → Nat → Option (Nat × Nat)
  | 0, _ => none
  | fuel + 1, i =>
    match matchToksAt ic toks s i with
    | some e => some (i, e)
    | none => if i < s.length then searchFromFuel ic toks s fuel (i + 1) else none

/-- Find the first match at a position `≥ i`, as `RegExp.prototype.exec`
does when scanning forward; returns (start, end). -/
def searchFrom (ic : Bool) (toks : List Tok) (s : List Char) (i : Nat) : Option (Nat × Nat) :=
  searchFromFuel ic toks s (s.length + 1 - i) i

/-- Model of `RegExp.prototype.test` on a global-flag regex: stateful in
`lastIndex` — search from `lastIndex`; on success set it to the match end,
on failure reset it to 0 (also when `lastIndex` is past the end). -/
def jsTest (ic : Bool) (toks : List Tok) (str : String) (lastIndex : Nat) : Bool × Nat :=
  let s := str.data
  if lastIndex > s.length then (false, 0)
  else
    match searchFrom ic toks s lastIndex with
    | some q => (true, q.2)
    | none => (false, 0)

/-- Count the non-overlapping matches from index `i` on, as iterating
`matchAll` does (advancing by at least one position per match); the fuel is
an upper bound on the number of matches, supplied as `length + 1`. -/
def countFrom (ic : Bool) (toks : List Tok) (s : List Char) : Nat → Nat → Nat
  | 0, _ => 0
  | fuel + 1, i =>
    match searchFrom ic toks s i with
    | none => 0
    | some q => 1 + countFrom ic toks s fuel (max q.2 (q.1 + 1))

/-- Number of matches of the pattern on one line, as `[...line.matchAll(pattern)].length`.
`matchAll` iterates on a clone of the regex, so the original's `lastIndex`
(0 throughout the scan phase) is not disturbed. -/
def countMatches (ic : Bool) (toks : List Tok) (line : String) : Nat :=
  countFrom ic toks line.data (line.length + 1) 0

/-- A per-line match record (src/search.js lines 403-407): 1-based line
number, the trimmed line text, and the number of matches on the line. -/
structure LineMatch where
  lineNumber : Nat
  line : String
  matchCount : Nat
deriving DecidableEq, Repr

/-- A per-file match record (src/search.js lines 412-419). -/
structure FileResult where
  filePath : FsPath
  fileName : String
  relativePath : String
  category : String
  «matches» : List LineMatch
  totalMatches : Nat
deriving DecidableEq, Repr

/-- The record `performSearch` returns.  `truncated` is an `Option` because
the short-circuit and error returns of the source omit that field. -/
structure SearchResult where
  results : List FileResult
  totalMatches : Nat
  error : Option String
  truncated : Option Bool
deriving DecidableEq, Repr

/-- The options object destructured by `performSearch`; `categories` is kept
as an insertion-ordered association list, matching `Object.entries` order. -/
structure SearchOptions where
  caseSensitive : Bool
  wholeWords : Bool
  categories : List (String × Bool)
deriving DecidableEq, Repr

/-- Model of `getRelativePath` (src/search.js lines 430-435): relative to the
current IG folder when set and a prefix of the file path, else the base name. -/
def getRelativePath (cur : Option FsPath) (filePath : FsPath) : String :=
  match cur with
  | some c =>
    if c.isPrefixOf filePath then joinPath (filePath.drop c.length)
    else basename filePath
  | none => basename filePath

/-- Model of `searchInFile` (src/search.js lines 392-427): read the file,
split into lines, record a LineMatch for each line with at least one match,
and return a FileResult only when some line matched; unreadable files yield
`none` (the source's catch). -/
def searchInFile (fs : FS) (cur : Option FsPath) (filePath : FsPath)
    (ic : Bool) (toks : List Tok) (category : String) : Option FileResult :=
  match readFileSync fs filePath with
  | .error _ => none
  | .ok content =>
    let lines := jsSplit '\n' content
    let lineRecs := lines.enum.filterMap (fun q =>
      let c := countMatches ic toks q.2
      if c > 0 then some ⟨q.1 + 1, jsTrim q.2, c⟩ else none)
    if lineRecs.length > 0 then
      some ⟨filePath, basename filePath, getRelativePath cur filePath, category, lineRecs,
            (lineRecs.map (fun m => m.matchCount)).sum⟩
    else none

/-- The directory names pruned by the walker (src/search.js lines 326-334),
compared case-insensitively against the bare directory name. -/
def skipDirs : List String :=
  ["node_modules", ".git", ".svn", ".hg",
   "temp", "input-cache", "txcache",
   "bin", "obj", "target", "build", "dist",
   ".vs", ".vscode", ".idea"]

/-- Model of `shouldSkipDirectory`. -/
def shouldSkipDirectory (dirName : String) : Bool :=
  skipDirs.contains (jsToLower dirName)

/-- Extension test of the walker: an empty allow-list admits every file,
otherwise the lower-cased extension must be listed. -/
def extensionOk (extensions : List String) (name : String) : Bool :=
  extensions.isEmpty || extensions.contains (jsToLower (extname name))

/-- Walk one directory: list its entries in declaration order, stat each, keep
files passing the extension test, and recurse into non-pruned subdirectories
when `recursive` is set (src/search.js lines 292-317).  The fuel argument only
drives termination; `findFilesInPath` supplies a bound on the depth of any
declared path, so it never runs out. -/
def walkDir (fs : FS) (extensions : List String) (recursive : Bool) :
    Nat → FsPath → List FsPath
  | 0, _ => []
  | fuel + 1, dir =>
    ((childNames fs dir).map (fun name =>
      let full := dir ++ [name]
      if isFilePath fs full then
        if extensionOk extensions name then [full] else []
      else if isDirPath fs full then
        if recursive && !shouldSkipDirectory name then
          walkDir fs extensions recursive fuel full
        else []
      else [])).flatten

/-- Model of `findFilesInPath` (src/search.js lines 284-323): walk the
directory; a missing or non-directory path yields no files (the source's
existence check, and its catch around `readdirSync`, which throws on a
non-directory). -/
def findFilesInPath (fs : FS) (dirPath : FsPath) (extensions : List String)
    (recursive : Bool) : List FsPath :=
  if isDirPath fs dirPath then
    walkDir fs extensions recursive (maxPathLen fs + 1) dirPath
  else []

/-- The text-file extension allow-list of `isTextFile` (src/search.js line 368). -/
def textExtensions : List String :=
  [".txt", ".md", ".json", ".xml", ".html", ".css", ".js", ".yaml", ".yml", ".properties"]

/-- Substring test: does `sub` occur contiguously in `s`?  Models
`String.prototype.includes`. -/
def containsSubstrAux (sub : List Char) : List Char → Bool
  | [] => sub.isPrefixOf []
  | c :: rest => sub.isPrefixOf (c :: rest) || containsSubstrAux sub rest

/-- String-level wrapper for the substring test. -/
def containsSubstr (s sub : String) : Bool :=
  containsSubstrAux sub.data s.data

/-- The first `n` characters of a string, as `content.substring(0, Math.min(n, length))`. -/
def sampleTake (n : Nat) (s : String) : String :=
  String.mk (s.data.take n)

/-- Model of `isResourceFile` (src/search.js lines 337-362): sniff the first
2000 characters of `.json` files for `"resourceType"` and of `.xml` files for
the FHIR namespace; `.map` and `.ttl` always pass; read errors exclude the
file. -/
def isResourceFile (fs : FS) (filePath : FsPath) : Bool :=
  let ext := jsToLower (extname (basename filePath))
  if ext = ".json" then
    match readFileSync fs filePath with
    | .ok content => containsSubstr (sampleTake 2000 content) "\"resourceType\""
    | .error _ => false
  else if ext = ".xml" then
    match readFileSync fs filePath with
    | .ok content =>
      containsSubstr (sampleTake 2000 content) "xmlns=\"http://hl7.org/fhir\""
      || containsSubstr (sampleTake 2000 content) "http://hl7.org/fhir"
    | .error _ => false
  else if ext = ".map" || ext = ".ttl" then true
  else false

/-- Model of `isTextFile` (src/search.js lines 365-389): recognized text
extensions pass outright; otherwise the first 512 bytes (modelled as
characters) must contain no null byte; read errors exclude the file. -/
def isTextFile (fs : FS) (filePath : FsPath) : Bool :=
  let ext := jsToLower (extname (basename filePath))
  if textExtensions.contains ext then true
  else
    match readFileSync fs filePath with
    | .ok content => (content.data.take 512).all (fun c => c.toNat ≠ 0)
    | .error _ => false

/-- The per-location file predicates of `getCategoryPaths`, reified (the
source stores closures in the config records). -/
inductive FilterKind where
  | noFilter
  | sushiConfigName
  | resourceFile
  | textFile
deriving DecidableEq, Repr

/-- Interpret a reified filter on a file path. -/
def applyFilter (fs : FS) : FilterKind → FsPath → Bool
  | .noFilter, _ => true
  | .sushiConfigName, p => basename p = "sushi-config.yaml"
  | .resourceFile, p => isResourceFile fs p
  | .textFile, p => isTextFile fs p

/-- A search location record, as pushed by `getCategoryPaths`. -/
structure SearchConfig where
  path : FsPath
  extensions : List String
  recursive : Bool
  filter : FilterKind
deriving DecidableEq, Repr

/-- Model of `getCategoryPaths` (src/search.js lines 204-281): build the
per-category location list (conditionally including `fsh-generated`), then
keep only locations whose path exists. -/
def getCategoryPaths (fs : FS) (igFolder : FsPath) (categoryName : String) :
    List SearchConfig :=
  let paths : List SearchConfig :=
    if categoryName = "fsh" then
      [⟨igFolder, [".yaml"], false, .sushiConfigName⟩,
       ⟨igFolder ++ ["input"], [".fsh"], true, .noFilter⟩]
    else if categoryName = "inputResources" then
      [⟨igFolder ++ ["input"], [".json", ".xml", ".map", ".ttl"], true, .resourceFile⟩]
      ++ (if existsSync fs (igFolder ++ ["fsh-generated"]) then
            [⟨igFolder ++ ["fsh-generated"], [".json", ".xml", ".map", ".ttl"], true,
              .resourceFile⟩]
          else [])
    else if categoryName = "inputPages" then
      [⟨igFolder ++ ["input", "pagecontent"], [], true, .noFilter⟩]
    else if categoryName = "translations" then
      [⟨igFolder ++ ["input", "translations"], [], true, .textFile⟩]
    else if categoryName = "outputResources" then
      [⟨igFolder ++ ["output"], [".json"], true, .resourceFile⟩]
    else if categoryName = "outputHtml" then
      [⟨igFolder ++ ["output"], [".html"], true, .noFilter⟩]
    else []
  paths.filter (fun c => existsSync fs c.path)

/-- The engine's fixed result budget (`this.maxResults = 200`). -/
def maxResults : Nat := 200

/-- Inner file loop of `searchCategory` (src/search.js lines 185-196):
stop once the accumulated file count reaches the budget, apply the
location's filter, and append each file's result record. -/
def scanFiles (fs : FS) (cur : Option FsPath) (ic : Bool) (toks : List Tok)
    (categoryName : String) (filter : FilterKind) (maxR : Nat) :
    List FsPath → List FileResult → List FileResult
  | [], acc => acc
  | f :: rest, acc =>
    if acc.length ≥ maxR then acc
    else if !(applyFilter fs filter f) then
      scanFiles fs cur ic toks categoryName filter maxR rest acc
    else
      match searchInFile fs cur f ic toks categoryName with
      | some r => scanFiles fs cur ic toks categoryName filter maxR rest (acc ++ [r])
      | none => scanFiles fs cur ic toks categoryName filter maxR rest acc

/-- Outer location loop of `searchCategory` (src/search.js lines 173-197):
stop once the budget is reached, skip locations that no longer exist,
enumerate files and scan them. -/
def scanConfigs (fs : FS) (cur : Option FsPath) (ic : Bool) (toks : List Tok)
    (categoryName : String) (maxR : Nat) :
    List SearchConfig → List FileResult → List FileResult
  | [], acc => acc
  | c :: rest, acc =>
    if acc.length ≥ maxR then acc
    else if !(existsSync fs c.path) then
      scanConfigs fs cur ic toks categoryName maxR rest acc
    else
      scanConfigs fs cur ic toks categoryName maxR rest
        (scanFiles fs cur ic toks categoryName c.filter maxR
          (findFilesInPath fs c.path c.extensions c.recursive) acc)

/-- Model of `searchCategory` (src/search.js lines 167-201).  `maxR` is the
remaining budget the caller passes (`maxResults - totalMatches`), compared
against the category-local FILE count. -/
def searchCategory (fs : FS) (cur : Option FsPath) (igFolder : FsPath)
    (categoryName : String) (ic : Bool) (toks : List Tok) (maxR : Nat) :
    List FileResult :=
  scanConfigs fs cur ic toks categoryName maxR (getCategoryPaths fs igFolder categoryName) []

/-- Line 120 of the source: a category's contribution to `totalMatches` is the
sum of `result.matches.length` — the number of matching LINES per file. -/
def sumLineCounts (rs : List FileResult) : Nat :=
  (rs.map (fun r => r.«matches».length)).sum

/-- Category loop of `performSearch` (src/search.js lines 99-121): iterate the
caller's category entries in order, skip disabled ones, break once the running
match total reaches the budget, and accumulate results and the match total. -/
def categoryLoop (fs : FS) (cur : Option FsPath) (igFolder : FsPath)
    (ic : Bool) (toks : List Tok) :
    List (String × Bool) → List FileResult → Nat → List FileResult × Nat
  | [], acc, tm => (acc, tm)
  | (name, enabled) :: rest, acc, tm =>
    if !enabled then categoryLoop fs cur igFolder ic toks rest acc tm
    else if tm ≥ maxResults then (acc, tm)
    else
      let catRes := searchCategory fs cur igFolder name ic toks (maxResults - tm)
      categoryLoop fs cur igFolder ic toks rest (acc ++ catRes) (tm + sumLineCounts catRes)

/-- The sort comparator of `performSearch` (src/search.js lines 124-133),
with the statefulness of `pattern.test` on a global regex made explicit:
`st` is the pattern's `lastIndex` before the comparison, and the comparator
returns the updated `lastIndex` along with the ordering value. -/
def compareResults (ic : Bool) (toks : List Tok) (st : Nat) (a b : FileResult) :
    Int × Nat :=
  let r1 := jsTest ic toks (basename a.filePath) st
  let r2 := jsTest ic toks (basename b.filePath) r1.2
  if r1.1 && !r2.1 then (-1, r2.2)
  else if !r1.1 && r2.1 then (1, r2.2)
  else ((b.«matches».length : Int) - (a.«matches».length : Int), r2.2)

/-- Insert one element into a sorted prefix, scanning left to right and
placing it before the first element that compares greater (a stable
insertion), threading the comparator state. -/
def insertSorted (ic : Bool) (toks : List Tok) (x : FileResult) :
    List FileResult → Nat → List FileResult × Nat
  | [], st => ([x], st)
  | y :: ys, st =>
    let c := compareResults ic toks st x y
    if c.1 < 0 then (x :: y :: ys, c.2)
    else
      let r := insertSorted ic toks x ys c.2
      (y :: r.1, r.2)

/-- Model of `results.sort(comparator)`.  ECMAScript leaves the comparison
sequence (and, for an inconsistent comparator, the resulting order) to the
engine; the model fixes a stable insertion sort that inserts each element
into the sorted prefix in arrival order, threading the regex `lastIndex`
through successive comparator calls starting from 0 (for two elements this
performs the single call comparator(second, first), as V8 does). -/
def sortResults (ic : Bool) (toks : List Tok) (rs : List FileResult) : List FileResult :=
  (rs.foldl (fun acc x =>
    let r := insertSorted ic toks x acc.1 acc.2
    (r.1, r.2)) (([] : List FileResult), 0)).1

/-- The try-block of `performSearch` (src/search.js lines 94-142): build the
pattern, run the category loop, sort, slice to the budget, and report
truncation; pattern-compilation failure is the throw site the catch guards.
The `Except` mirrors the exception channel of the source. -/
def performSearchBody (fs : FS) (cur : Option FsPath) (igFolder : FsPath)
    (searchTerm : String) (opts : SearchOptions) : Except String SearchResult :=
  let p := createSearchPattern searchTerm opts.caseSensitive opts.wholeWords
  match compile p with
  | none => .error "Invalid regular expression"
  | some toks =>
    let ic := p.flags.data.contains 'i'
    let q := categoryLoop fs cur igFolder ic toks opts.categories [] 0
    .ok { results := (sortResults ic toks q.1).take maxResults
          totalMatches := q.2
          error := none
          truncated := some (decide (q.2 > maxResults)) }

/-- The catch clause of `performSearch` (src/search.js lines 144-151): a
successful body passes through, an exception becomes the error-shaped record
(results empty, zero total, message in `error`, no `truncated` field). -/
def tryCatch (body : Except String SearchResult) : SearchResult :=
  match body with
  | .ok r => r
  | .error msg => { results := [], totalMatches := 0, error := some msg, truncated := none }

/-- Model of `performSearch` (src/search.js lines 78-152): empty and
whitespace-only terms short-circuit to an empty success; otherwise the body
runs and any exception it raises is converted to the error-shaped record. -/
def performSearch (fs : FS) (cur : Option FsPath) (igFolder : FsPath)
    (searchTerm : String) (opts : SearchOptions) : SearchResult :=
  if searchTerm = "" || jsTrim searchTerm = "" then
    { results := [], totalMatches := 0, error := none, truncated := none }
  else
    tryCatch (performSearchBody fs cur igFolder searchTerm opts)

/-- Per-project search state (src/search.js lines 12-26). -/
structure SearchState where
  searchTerm : String
  caseSensitive : Bool
  wholeWords : Bool
  categories : List (String × Bool)
  results : List FileResult
  lastSearchTime : Option Nat
deriving DecidableEq, Repr

/-- The default state installed on first access, with the documented default
category enablement. -/
def defaultSearchState : SearchState :=
  ⟨"", false, false,
   [("fsh", true), ("inputResources", true), ("inputPages", true), ("translations", true),
    ("outputResources", false), ("outputHtml", false)],
   [], none⟩

/-- The per-project state map, keyed by project root; lookup takes the most
recently saved entry. -/
abbrev SearchStates := List (FsPath × SearchState)

/-- Model of `getSearchState` as an observation: the stored state, or the
default when none was stored (the source also installs the default on first
access, which this lookup-with-default renders observationally). -/
def getSearchState (states : SearchStates) (igFolder : FsPath) : SearchState :=
  ((states.find? (fun e => e.1 == igFolder)).map (fun e => e.2)).getD defaultSearchState

/-- Model of `saveSearchState`: replace the stored state for the key. -/
def saveSearchState (states : SearchStates) (igFolder : FsPath) (st : SearchState) :
    SearchStates :=
  (igFolder, st) :: states

/-- Model of `clearOutputResults` (src/search.js lines 37-43): drop every
stored result whose category name starts with "output", keep everything else. -/
def clearOutputResults (states : SearchStates) (igFolder : FsPath) : SearchStates :=
  let st := getSearchState states igFolder
  saveSearchState states igFolder
    { st with results := st.results.filter (fun r => !(jsStartsWith r.category "output")) }

/-- Modelled from the spec: the renderer-side wiring that completes a search —
invoking `performSearch` and storing the returned configuration and results
into the project's SearchState via `saveSearchState` — is not under src/
(only the engine is); the spec states that `results` in SearchState always
reflects the output of the most recently completed `performSearch` call. -/
def completeSearch (fs : FS) (cur : Option FsPath) (states : SearchStates)
    (igFolder : FsPath) (searchTerm : String) (opts : SearchOptions) :
    SearchStates × SearchResult :=
  let r := performSearch fs cur igFolder searchTerm opts
  let st := getSearchState states igFolder
  (saveSearchState states igFolder
    { st with searchTerm := searchTerm
              caseSensitive := opts.caseSensitive
              wholeWords := opts.wholeWords
              categories := opts.categories
              results := r.results }, r)


/-- Literal occurrence of `term` in `s` at index `i`, up to the case folding
the `i` flag applies; this is the specification-side notion the escaped
pattern is compared against. -/
def litOccursAt (ic : Bool) (term s : List Char) (i : Nat) : Bool :=
  decide (((s.drop i).take term.length).map (canon ic) = term.map (canon ic))

/-- Sum of `matchCount` over every LineMatch of every FileResult in a list —
the quantity the specification says `totalMatches` equals. -/
def sumMatchCounts (rs : List FileResult) : Nat :=
  (rs.map (fun r => (r.«matches».map (fun m => m.matchCount)).sum)).sum

/-- The six category names of the fixed closed category set. -/
def validCategory (c : String) : Bool :=
  ["fsh", "inputResources", "inputPages", "translations",
   "outputResources", "outputHtml"].contains c

/-- Specification-side rendering of the fixed location table of spec section
4.2, row for row: category, root-relative location, extension allow-list,
recursion flag and content filter; the `fsh-generated` row is present only
when that directory exists, as the table states. -/
def specCategoryLocations (fs : FS) (igFolder : FsPath) (categoryName : String) :
    List SearchConfig :=
  if categoryName = "fsh" then
    [⟨igFolder, [".yaml"], false, .sushiConfigName⟩,
     ⟨igFolder ++ ["input"], [".fsh"], true, .noFilter⟩]
  else if categoryName = "inputResources" then
    [⟨igFolder ++ ["input"], [".json", ".xml", ".map", ".ttl"], true, .resourceFile⟩]
    ++ (if existsSync fs (igFolder ++ ["fsh-generated"]) then
          [⟨igFolder ++ ["fsh-generated"], [".json", ".xml", ".map", ".ttl"], true,
            .resourceFile⟩]
        else [])
  else if categoryName = "inputPages" then
    [⟨igFolder ++ ["input", "pagecontent"], [], true, .noFilter⟩]
  else if categoryName = "translations" then
    [⟨igFolder ++ ["input", "translations"], [], true, .textFile⟩]
  else if categoryName = "outputResources" then
    [⟨igFolder ++ ["output"], [".json"], true, .resourceFile⟩]
  else if categoryName = "outputHtml" then
    [⟨igFolder ++ ["output"], [".html"], true, .noFilter⟩]
  else []

/-- Specification-side true match total of one category: every file of every
location of the category, with the location's filter applied but NO budget,
summing each matching file's total match count. -/
def trueCategoryMatches (fs : FS) (cur : Option FsPath) (igFolder : FsPath)
    (name : String) (ic : Bool) (toks : List Tok) : Nat :=
  (((getCategoryPaths fs igFolder name).map (fun c =>
    ((((findFilesInPath fs c.path c.extensions c.recursive).filter
        (fun f => applyFilter fs c.filter f)).map
      (fun f =>
        match searchInFile fs cur f ic toks name with
        | some r => r.totalMatches
        | none => 0)).sum))).sum)

/-- Specification-side "true total number of matches across enabled
categories", with no budget applied anywhere. -/
def trueTotalMatches (fs : FS) (cur : Option FsPath) (igFolder : FsPath)
    (searchTerm : String) (opts : SearchOptions) : Nat :=
  let p := createSearchPattern searchTerm opts.caseSensitive opts.wholeWords
  match compile p with
  | none => 0
  | some toks =>
    ((opts.categories.filter (fun e => e.2)).map
      (fun e => trueCategoryMatches fs cur igFolder e.1 (p.flags.data.contains 'i') toks)).sum

/-- Options enabling only the inputPages category, used by several fixtures. -/
def optsPages : SearchOptions := ⟨false, false, [("inputPages", true)]⟩

/-- The directory skeleton shared by the page-file fixtures. -/
def pageDirs : List FsPath :=
  [[], ["input"], ["input", "pagecontent"]]

/-- Fixture: one page file whose single line contains two matches of "aa". -/
def fsC2 : FS :=
  ⟨[(["input", "pagecontent", "note.txt"], some "aa aa")], pageDirs⟩

/-- Fixture: two page files whose base names both contain "ab"; the first has
five matching lines, the second two. -/
def fsC8 : FS :=
  ⟨[(["input", "pagecontent", "ab.cd"], some "ab\nab\nab\nab\nab"),
    (["input", "pagecontent", "ab.ce"], some "ab\nab")], pageDirs⟩

/-- A file content of `n` lines each holding the single character `c`. -/
def repLines (n : Nat) (c : Char) : String :=
  String.mk ((List.replicate n [c]).intersperse ['\n']).flatten

/-- Fixture: one page file with 201 lines, each matching once. -/
def fsC1a : FS :=
  ⟨[(["input", "pagecontent", "big.txt"], some (repLines 201 'c'))], pageDirs⟩

/-- Fixture: a 200-line matching page file plus a 1-line matching translation
file, so the true total is 201 while the scan stops at 200. -/
def fsC1b : FS :=
  ⟨[(["input", "pagecontent", "big.txt"], some (repLines 200 'c')),
    (["input", "translations", "t.txt"], some "c")],
   pageDirs ++ [["input", "translations"]]⟩

/-- Options enabling inputPages then translations, in that order. -/
def optsC1b : SearchOptions := ⟨false, false, [("inputPages", true), ("translations", true)]⟩

/-- A small FileResult literal for state-store fixtures. -/
def frW (cat : String) (n : Nat) : FileResult :=
  ⟨["f"], "f", "f", cat, [⟨1, "x", n⟩], n⟩

/-- Fixture state map: one project with stored results in mixed categories. -/
def statesW : SearchStates :=
  [(["p"], { defaultSearchState with
              searchTerm := "t",
              results := [frW "fsh" 1, frW "outputResources" 2,
                          frW "inputPages" 3, frW "outputHtml" 4] })]


/-! Parsing and matching lemmas: escaping round-trips to literal tokens, and a
literal-token pattern matches exactly at literal occurrences. -/

theorem parseToks_escape_append (cs : List Char) (suffix : List Char) (ts : List Tok)
    (h : parseToks suffix = some ts) :
    parseToks ((cs.map escChar).flatten ++ suffix) = some (cs.map Tok.lit ++ ts) := by
  induction cs with
  | nil => simpa using h
  | cons c cs ih =>
    by_cases hm : isMeta c = true
    · have hb : ¬ c = 'b' := by
        intro hcb
        rw [hcb] at hm
        exact absurd hm (by decide)
      simp only [List.map_cons, List.flatten_cons, escChar, hm, if_true, List.cons_append,
        List.append_assoc]
      rw [parseToks.eq_def]
      simp [hb, hm, ih]
    · have hbs : ¬ c = '\\' := by
        intro hcb
        rw [hcb] at hm
        exact absurd (by decide : isMeta '\\' = true) hm
      simp only [List.map_cons, List.flatten_cons, escChar, hm, if_false, List.cons_append,
        List.append_assoc]
      rw [parseToks.eq_def]
      simp [hbs, hm, ih]

theorem parseToks_escape (t : String) :
    parseToks (escapeRegExp t).data = some (t.data.map Tok.lit) := by
  have h := parseToks_escape_append t.data [] [] rfl
  simpa [escapeRegExp] using h

theorem parseToks_escape_wrapped (t : String) :
    parseToks ("\\b" ++ escapeRegExp t ++ "\\b").data
      = some (Tok.wordB :: (t.data.map Tok.lit ++ [Tok.wordB])) := by
  have h2 : parseToks ['\\', 'b'] = some [Tok.wordB] := by decide
  have h := parseToks_escape_append t.data ['\\', 'b'] [Tok.wordB] h2
  have hd : ("\\b" ++ escapeRegExp t ++ "\\b").data
      = '\\' :: 'b' :: ((t.data.map escChar).flatten ++ ['\\', 'b']) := by
    simp [escapeRegExp, String.data_append]
  rw [hd, parseToks.eq_def]
  simp [h]

theorem litOccursAt_cons (ic : Bool) (c : Char) (cs : List Char) (s : List Char)
    (i : Nat) (d : Char) (hd : s.drop i = d :: s.drop (i + 1)) :
    litOccursAt ic (c :: cs) s i
      = (decide (canon ic d = canon ic c) && litOccursAt ic cs s (i + 1)) := by
  simp [litOccursAt, hd, Bool.decide_and]

theorem litOccursAt_past_end (ic : Bool) (c : Char) (cs : List Char) (s : List Char)
    (i : Nat) (hd : s.drop i = []) :
    litOccursAt ic (c :: cs) s i = false := by
  simp [litOccursAt, hd]

theorem matchToksAt_lit (ic : Bool) (cs : List Char) (s : List Char) (i : Nat) :
    matchToksAt ic (cs.map Tok.lit) s i
      = if litOccursAt ic cs s i then some (i + cs.length) else none := by
  induction cs generalizing i with
  | nil => simp [matchToksAt, litOccursAt]
  | cons c cs ih =>
    rw [List.map_cons]
    cases hs : s[i]? with
    | none =>
      have hlen : s.length ≤ i := by
        simpa [List.getElem?_eq_none_iff] using hs
      have hd : s.drop i = [] := by
        simp [List.drop_eq_nil_iff, hlen]
      simp [matchToksAt, hs, litOccursAt_past_end ic c cs s i hd]
    | some d =>
      have hi : i < s.length := by
        by_contra hlt
        push_neg at hlt
        rw [List.getElem?_eq_none hlt] at hs
        exact Option.noConfusion hs
      have hsd : s[i] = d := by
        rw [List.getElem?_eq_getElem hi] at hs
        exact Option.some.inj hs
      have hd : s.drop i = d :: s.drop (i + 1) := by
        rw [List.drop_eq_getElem_cons hi, hsd]
      rw [litOccursAt_cons ic c cs s i d hd]
      by_cases hc : canon ic d = canon ic c
      · have harith : i + 1 + cs.length = i + (c :: cs).length := by
          simp only [List.length_cons]
          omega
        simp only [matchToksAt, hs, if_pos hc, ih, hc, harith]
        simp
      · simp [matchToksAt, hs, hc]

/-! Accounting lemmas: the running total is the line-count sum of the
accumulated results, and the sort permutes its input. -/

theorem sumLineCounts_append (a b : List FileResult) :
    sumLineCounts (a ++ b) = sumLineCounts a + sumLineCounts b := by
  simp [sumLineCounts]

theorem categoryLoop_totalMatches (fs : FS) (cur : Option FsPath) (ig : FsPath)
    (ic : Bool) (toks : List Tok) (cats : List (String × Bool))
    (acc : List FileResult) (tm : Nat) (h : tm = sumLineCounts acc) :
    (categoryLoop fs cur ig ic toks cats acc tm).2
      = sumLineCounts (categoryLoop fs cur ig ic toks cats acc tm).1 := by
  induction cats generalizing acc tm with
  | nil => simpa [categoryLoop] using h
  | cons e rest ih =>
    obtain ⟨name, enabled⟩ := e
    rw [categoryLoop]
    by_cases he : enabled
    · simp only [he, Bool.not_true]
      rw [if_neg (by simp)]
      by_cases htm : tm ≥ maxResults
      · rw [if_pos htm]
        exact h
      · rw [if_neg htm]
        apply ih
        rw [h, sumLineCounts_append]
    · have he2 : enabled = false := by simpa using he
      simp only [he2, Bool.not_false, if_true]
      exact ih acc tm h

theorem insertSorted_perm (ic : Bool) (toks : List Tok) (x : FileResult)
    (l : List FileResult) (st : Nat) :
    (insertSorted ic toks x l st).1.Perm (x :: l) := by
  induction l generalizing st with
  | nil => simp [insertSorted]
  | cons y ys ih =>
    rw [insertSorted]
    split
    · exact List.Perm.refl _
    · refine List.Perm.trans (List.Perm.cons y (ih _)) ?_
      exact List.Perm.swap x y ys

theorem sortFold_perm (ic : Bool) (toks : List Tok) (rs : List FileResult)
    (acc : List FileResult × Nat) :
    (rs.foldl (fun a x =>
      let r := insertSorted ic toks x a.1 a.2
      (r.1, r.2)) acc).1.Perm (acc.1 ++ rs) := by
  induction rs generalizing acc with
  | nil => simp
  | cons x rs ih =>
    rw [List.foldl_cons]
    refine List.Perm.trans (ih _) ?_
    refine List.Perm.trans
      (List.Perm.append_right rs (insertSorted_perm ic toks x acc.1 acc.2)) ?_
    exact List.perm_middle.symm

theorem sortResults_perm (ic : Bool) (toks : List Tok) (rs : List FileResult) :
    (sortResults ic toks rs).Perm rs := by
  have h := sortFold_perm ic toks rs ([], 0)
  simpa [sortResults] using h

theorem sumLineCounts_perm (a b : List FileResult) (h : a.Perm b) :
    sumLineCounts a = sumLineCounts b :=
  List.Perm.sum_eq (List.Perm.map _ h)

/-! Category-name lemmas: every produced FileResult carries the name of the
category it was found under, and unknown category names produce nothing. -/

theorem searchInFile_category (fs : FS) (cur : Option FsPath) (f : FsPath)
    (ic : Bool) (toks : List Tok) (cat : String) (r : FileResult)
    (h : searchInFile fs cur f ic toks cat = some r) : r.category = cat := by
  simp only [searchInFile] at h
  split at h
  · exact Option.noConfusion h
  · split at h
    · obtain rfl := Option.some.inj h
      rfl
    · exact Option.noConfusion h

theorem scanFiles_mem (fs : FS) (cur : Option FsPath) (ic : Bool) (toks : List Tok)
    (name : String) (filter : FilterKind) (maxR : Nat) (files : List FsPath)
    (acc : List FileResult) (r : FileResult)
    (h : r ∈ scanFiles fs cur ic toks name filter maxR files acc) :
    r ∈ acc ∨ r.category = name := by
  induction files generalizing acc with
  | nil => exact Or.inl (by simpa [scanFiles] using h)
  | cons f rest ih =>
    rw [scanFiles] at h
    split at h
    · exact Or.inl h
    · split at h
      · exact ih acc h
      · split at h
        · rename_i r2 hr2
          rcases ih _ h with hmem | hcat
          · rcases List.mem_append.mp hmem with hmem2 | hmem2
            · exact Or.inl hmem2
            · have heq : r = r2 := by simpa using hmem2
              subst heq
              exact Or.inr (searchInFile_category fs cur f ic toks name r hr2)
          · exact Or.inr hcat
        · exact ih acc h

theorem scanConfigs_mem (fs : FS) (cur : Option FsPath) (ic : Bool) (toks : List Tok)
    (name : String) (maxR : Nat) (configs : List SearchConfig)
    (acc : List FileResult) (r : FileResult)
    (h : r ∈ scanConfigs fs cur ic toks name maxR configs acc) :
    r ∈ acc ∨ r.category = name := by
  induction configs generalizing acc with
  | nil => exact Or.inl (by simpa [scanConfigs] using h)
  | cons c rest ih =>
    rw [scanConfigs] at h
    split at h
    · exact Or.inl h
    · split at h
      · exact ih acc h
      · rcases ih _ h with hmem | hcat
        · exact scanFiles_mem fs cur ic toks name c.filter maxR _ acc r hmem
        · exact Or.inr hcat

theorem searchCategory_mem (fs : FS) (cur : Option FsPath) (ig : FsPath)
    (name : String) (ic : Bool) (toks : List Tok) (maxR : Nat) (r : FileResult)
    (h : r ∈ searchCategory fs cur ig name ic toks maxR) : r.category = name := by
  rcases scanConfigs_mem fs cur ic toks name maxR _ [] r h with hmem | hcat
  · exact absurd hmem (List.not_mem_nil r)
  · exact hcat

theorem getCategoryPaths_unknown (fs : FS) (ig : FsPath) (name : String)
    (h : validCategory name = false) : getCategoryPaths fs ig name = [] := by
  have hne : ∀ c : String, validCategory c = true → name ≠ c := by
    intro c hc he
    rw [he, hc] at h
    exact Bool.noConfusion h
  have h1 := hne "fsh" (by decide)
  have h2 := hne "inputResources" (by decide)
  have h3 := hne "inputPages" (by decide)
  have h4 := hne "translations" (by decide)
  have h5 := hne "outputResources" (by decide)
  have h6 := hne "outputHtml" (by decide)
  simp [getCategoryPaths, h1, h2, h3, h4, h5, h6]

theorem searchCategory_unknown (fs : FS) (cur : Option FsPath) (ig : FsPath)
    (name : String) (ic : Bool) (toks : List Tok) (maxR : Nat)
    (h : validCategory name = false) :
    searchCategory fs cur ig name ic toks maxR = [] := by
  rw [searchCategory, getCategoryPaths_unknown fs ig name h]
  rw [scanConfigs]

theorem categoryLoop_valid (fs : FS) (cur : Option FsPath) (ig : FsPath)
    (ic : Bool) (toks : List Tok) (cats : List (String × Bool))
    (acc : List FileResult) (tm : Nat) (r : FileResult)
    (h : r ∈ (categoryLoop fs cur ig ic toks cats acc tm).1)
    (hacc : ∀ x ∈ acc, validCategory x.category = true) :
    validCategory r.category = true := by
  induction cats generalizing acc tm with
  | nil => exact hacc r (by simpa [categoryLoop] using h)
  | cons e rest ih =>
    obtain ⟨name, enabled⟩ := e
    rw [categoryLoop] at h
    split at h
    · exact ih acc tm h hacc
    · split at h
      · exact hacc r h
      · refine ih _ _ h ?_
        intro x hx
        rcases List.mem_append.mp hx with hx2 | hx2
        · exact hacc x hx2
        · by_cases hv : validCategory name = true
          · rw [searchCategory_mem fs cur ig name ic toks _ x hx2]
            exact hv
          · rw [searchCategory_unknown fs cur ig name ic toks _
              (by simpa using hv)] at hx2
            exact absurd hx2 (List.not_mem_nil x)

/-! Shape lemmas for `performSearch`: the two return paths, and validity of
the categories of everything it returns. -/

theorem compile_createSearchPattern (term : String) (cs ww : Bool) :
    compile (createSearchPattern term cs ww)
      = some (if ww then Tok.wordB :: (term.data.map Tok.lit ++ [Tok.wordB])
              else term.data.map Tok.lit) := by
  cases ww
  · simpa [compile, createSearchPattern] using parseToks_escape term
  · simpa [compile, createSearchPattern] using parseToks_escape_wrapped term

theorem flags_contain_i (term : String) (cs ww : Bool) :
    (createSearchPattern term cs ww).flags.data.contains 'i' = !cs := by
  cases cs <;> simp [createSearchPattern]

theorem performSearch_blank (fs : FS) (cur : Option FsPath) (ig : FsPath)
    (term : String) (opts : SearchOptions) (h : term = "" ∨ jsTrim term = "") :
    performSearch fs cur ig term opts
      = { results := [], totalMatches := 0, error := none, truncated := none } := by
  rw [performSearch, if_pos]
  rcases h with h | h <;> simp [h]

theorem performSearch_success (fs : FS) (cur : Option FsPath) (ig : FsPath)
    (term : String) (opts : SearchOptions) (h : ¬(term = "" ∨ jsTrim term = "")) :
    performSearch fs cur ig term opts =
      (let toks := if opts.wholeWords then Tok.wordB :: (term.data.map Tok.lit ++ [Tok.wordB])
                   else term.data.map Tok.lit
       let q := categoryLoop fs cur ig (!opts.caseSensitive) toks opts.categories [] 0
       { results := (sortResults (!opts.caseSensitive) toks q.1).take maxResults
         totalMatches := q.2
         error := none
         truncated := some (decide (q.2 > maxResults)) }) := by
  push_neg at h
  rw [performSearch, if_neg (by simp [h.1, h.2])]
  rw [performSearchBody.eq_def]
  simp only [compile_createSearchPattern, flags_contain_i]
  rfl

theorem performSearch_valid (fs : FS) (cur : Option FsPath) (ig : FsPath)
    (term : String) (opts : SearchOptions) (r : FileResult)
    (h : r ∈ (performSearch fs cur ig term opts).results) :
    validCategory r.category = true := by
  by_cases hb : term = "" ∨ jsTrim term = ""
  · rw [performSearch_blank fs cur ig term opts hb] at h
    exact absurd h (List.not_mem_nil r)
  · rw [performSearch_success fs cur ig term opts hb] at h
    simp only at h
    have h2 := List.take_subset maxResults _ h
    have h3 := (sortResults_perm _ _ _).mem_iff.mp h2
    exact categoryLoop_valid fs cur ig _ _ opts.categories [] 0 r h3
      (fun x hx => absurd hx (List.not_mem_nil x))

theorem startsWith_output_of_valid (c : String) (h : validCategory c = true) :
    jsStartsWith c "output" = (c = "outputResources" || c = "outputHtml") := by
  have hc : c = "fsh" ∨ c = "inputResources" ∨ c = "inputPages" ∨ c = "translations"
      ∨ c = "outputResources" ∨ c = "outputHtml" := by
    simpa [validCategory, List.contains_iff_exists_mem_beq] using h
  rcases hc with rfl | rfl | rfl | rfl | rfl | rfl <;> decide

/-! State-store lemmas. -/

theorem getSearchState_save (states : SearchStates) (ig : FsPath) (st : SearchState) :
    getSearchState (saveSearchState states ig st) ig = st := by
  simp [getSearchState, saveSearchState, List.find?]

theorem clearOutput_results_eq (states : SearchStates) (ig : FsPath)
    (hval : ∀ x ∈ (getSearchState states ig).results, validCategory x.category = true) :
    (getSearchState (clearOutputResults states ig) ig).results
      = (getSearchState states ig).results.filter
          (fun r => !(r.category = "outputResources" || r.category = "outputHtml")) := by
  simp only [clearOutputResults]
  rw [getSearchState_save]
  exact List.filter_congr (fun x hx => by
    rw [startsWith_output_of_valid x.category (hval x hx)])


theorem success_total_eq_sum (fs : FS) (cur : Option FsPath) (ig : FsPath)
    (ic : Bool) (toks : List Tok) (cats : List (String × Bool))
    (h : ((sortResults ic toks (categoryLoop fs cur ig ic toks cats [] 0).1).take
        maxResults).length < maxResults) :
    (categoryLoop fs cur ig ic toks cats [] 0).2
      = sumLineCounts ((sortResults ic toks
          (categoryLoop fs cur ig ic toks cats [] 0).1).take maxResults) := by
  have hlen : (sortResults ic toks (categoryLoop fs cur ig ic toks cats [] 0).1).length
      < maxResults := by
    rw [List.length_take] at h
    omega
  rw [List.take_of_length_le (le_of_lt hlen)]
  rw [sumLineCounts_perm _ _ (sortResults_perm _ _ _)]
  exact categoryLoop_totalMatches fs cur ig ic toks cats [] 0 (by simp [sumLineCounts])

/-! The claim theorems. -/

set_option maxRecDepth 10000 in
/-- C1, counterexample: the claim "totalMatches never exceeds 200, and a true
total above 200 sets truncated" fails on the code.  With one enabled category
holding a single 201-line matching file, the search returns without error
with totalMatches = 201 > 200 (the inner budget counts files, not matches);
and with a 200-line file followed by a 1-line file in a second category, the
true total is 201 > 200 yet truncated is false, because the loop stops at a
running total of 200 and reports truncation only when the counted total
exceeds the budget. -/
theorem c1_counterexample :
    ((performSearch fsC1a none [] "c" optsPages).error = none
      ∧ ¬ (performSearch fsC1a none [] "c" optsPages).totalMatches ≤ maxResults)
    ∧ ((performSearch fsC1b none [] "c" optsC1b).error = none
      ∧ maxResults < trueTotalMatches fsC1b none [] "c" optsC1b
      ∧ ¬ (performSearch fsC1b none [] "c" optsC1b).truncated = some true) := by
  refine ⟨⟨by decide, by decide⟩, by decide, by decide, by decide⟩

/-- C1, amended: the returned results LIST never exceeds the budget of 200
entries, and for a non-blank term the truncated flag equals the comparison
of the returned totalMatches (which may itself exceed 200 and may undercount
the true total) against the budget. -/
theorem c1_amended_budget (fs : FS) (cur : Option FsPath) (ig : FsPath)
    (term : String) (opts : SearchOptions) :
    (performSearch fs cur ig term opts).results.length ≤ maxResults
    ∧ (¬(term = "" ∨ jsTrim term = "") →
        (performSearch fs cur ig term opts).truncated
          = some (decide (maxResults < (performSearch fs cur ig term opts).totalMatches))) := by
  by_cases hb : term = "" ∨ jsTrim term = ""
  · rw [performSearch_blank fs cur ig term opts hb]
    exact ⟨by simp, fun hc => absurd hb hc⟩
  · rw [performSearch_success fs cur ig term opts hb]
    exact ⟨List.length_take_le _ _, fun _ => rfl⟩

set_option maxRecDepth 10000 in
/-- C1, witness for the amended theorem at a concrete overflowing search. -/
theorem c1_amended_budget_witness :
    ¬(("c" : String) = "" ∨ jsTrim "c" = "")
    ∧ (performSearch fsC1a none [] "c" optsPages).truncated = some true := by
  have h := c1_amended_budget fsC1a none [] "c" optsPages
  refine ⟨by decide, ?_⟩
  rw [h.2 (by decide)]
  decide

/-- C2, counterexample: totalMatches is NOT the sum of matchCount over the
returned LineMatch entries.  One returned file with one line carrying two
matches yields totalMatches = 1 (the source sums matching LINES, line 120)
while the matchCount sum is 2. -/
theorem c2_counterexample :
    (performSearch fsC2 none [] "aa" optsPages).error = none
    ∧ (performSearch fsC2 none [] "aa" optsPages).totalMatches = 1
    ∧ sumMatchCounts (performSearch fsC2 none [] "aa" optsPages).results = 2 := by
  refine ⟨by decide, by decide, by decide⟩

/-- C2, amended: totalMatches equals the number of matching LINES (LineMatch
entries) summed over the returned files, whenever fewer files than the budget
are returned (so that the final slice dropped nothing). -/
theorem c2_amended_totalMatches (fs : FS) (cur : Option FsPath) (ig : FsPath)
    (term : String) (opts : SearchOptions)
    (h : (performSearch fs cur ig term opts).results.length < maxResults) :
    (performSearch fs cur ig term opts).totalMatches
      = sumLineCounts (performSearch fs cur ig term opts).results := by
  by_cases hb : term = "" ∨ jsTrim term = ""
  · rw [performSearch_blank fs cur ig term opts hb]
    simp [sumLineCounts]
  · rw [performSearch_success fs cur ig term opts hb] at h ⊢
    simp only at h ⊢
    exact success_total_eq_sum fs cur ig (!opts.caseSensitive) _ opts.categories h

/-- C2, witness for the amended theorem at a concrete small search. -/
theorem c2_amended_totalMatches_witness :
    (performSearch fsC2 none [] "aa" optsPages).results.length < maxResults
    ∧ (performSearch fsC2 none [] "aa" optsPages).totalMatches
        = sumLineCounts (performSearch fsC2 none [] "aa" optsPages).results :=
  ⟨by decide, c2_amended_totalMatches fsC2 none [] "aa" optsPages (by decide)⟩


/-- C3 (spec-modelled: the renderer wiring that saves the search output into
the state store is not under src/; `completeSearch` models it from the spec):
after a completed search the stored `results` equal the returned `results`,
and after an `invalidateOutput` (build-started) event they equal the previous
stored list with the output-category entries removed. -/
theorem c3_state_reflects_search (fs : FS) (cur : Option FsPath) (states : SearchStates)
    (ig : FsPath) (term : String) (opts : SearchOptions) :
    (getSearchState (completeSearch fs cur states ig term opts).1 ig).results
      = (performSearch fs cur ig term opts).results
    ∧ (getSearchState
        (clearOutputResults (completeSearch fs cur states ig term opts).1 ig) ig).results
      = (getSearchState (completeSearch fs cur states ig term opts).1 ig).results.filter
          (fun r => !(r.category = "outputResources" || r.category = "outputHtml")) := by
  have h1 : (getSearchState (completeSearch fs cur states ig term opts).1 ig).results
      = (performSearch fs cur ig term opts).results := by
    simp only [completeSearch]
    rw [getSearchState_save]
  refine ⟨h1, ?_⟩
  apply clearOutput_results_eq
  intro x hx
  rw [h1] at hx
  exact performSearch_valid fs cur ig term opts x hx

/-- C4: `performSearch` is total and contains every failure: a body that
raises is converted by the catch into the exact error-shaped record (no
`truncated` field), and every call returns either an error-free record or
that error record — never a propagated exception. -/
theorem c4_no_exception_escapes :
    (∀ (body : Except String SearchResult) (msg : String), body = .error msg →
      tryCatch body = { results := [], totalMatches := 0, error := some msg, truncated := none })
    ∧ ∀ (fs : FS) (cur : Option FsPath) (ig : FsPath) (term : String) (opts : SearchOptions),
        (performSearch fs cur ig term opts).error = none
        ∨ ∃ msg, performSearch fs cur ig term opts
            = { results := [], totalMatches := 0, error := some msg, truncated := none } := by
  constructor
  · intro body msg hb
    rw [hb]
    rfl
  · intro fs cur ig term opts
    by_cases hb : term = "" ∨ jsTrim term = ""
    · rw [performSearch_blank fs cur ig term opts hb]
      exact Or.inl rfl
    · rw [performSearch_success fs cur ig term opts hb]
      exact Or.inl rfl

/-- C4, witness: the containment conjunct applied to a concrete raised error,
and the disjunct at a concrete search. -/
theorem c4_no_exception_escapes_witness :
    tryCatch (.error "boom")
      = { results := [], totalMatches := 0, error := some "boom", truncated := none } :=
  c4_no_exception_escapes.1 (.error "boom") "boom" rfl

/-- C5: `createSearchPattern` escapes every metacharacter of the term, so the
compiled pattern is the literal token sequence of the term (wrapped in
word-boundary assertions when wholeWords is set), and that literal sequence
matches at a position exactly when the term occurs there literally (up to the
case folding of the `i` flag); the flag string always carries `g` and carries
`i` exactly when caseSensitive is false. -/
theorem c5_pattern_literal (term : String) (cs ww : Bool) :
    (createSearchPattern term cs ww).flags.data.contains 'g' = true
    ∧ (createSearchPattern term cs ww).flags.data.contains 'i' = !cs
    ∧ (createSearchPattern term cs ww).source
        = (if ww then "\\b" ++ escapeRegExp term ++ "\\b" else escapeRegExp term)
    ∧ compile (createSearchPattern term cs ww)
        = some (if ww then Tok.wordB :: (term.data.map Tok.lit ++ [Tok.wordB])
                else term.data.map Tok.lit)
    ∧ ∀ (s : String) (i : Nat),
        matchToksAt (!cs) (term.data.map Tok.lit) s.data i
          = if litOccursAt (!cs) term.data s.data i then some (i + term.length) else none := by
  refine ⟨?_, flags_contain_i term cs ww, ?_, compile_createSearchPattern term cs ww, ?_⟩
  · cases cs <;> simp [createSearchPattern]
  · cases ww <;> simp [createSearchPattern]
  · intro s i
    exact matchToksAt_lit (!cs) term.data s.data i

/-- C6: `invalidateOutput` (clearOutputResults) removes exactly the stored
results in the two output categories, keeps all others in order, and leaves
the search term, the two flags and the category map untouched; the hypothesis
restricts stored categories to the closed category set of the data model. -/
theorem c6_invalidate_output (states : SearchStates) (ig : FsPath)
    (h : ∀ r ∈ (getSearchState states ig).results, validCategory r.category = true) :
    (getSearchState (clearOutputResults states ig) ig).results
      = (getSearchState states ig).results.filter
          (fun r => !(r.category = "outputResources" || r.category = "outputHtml"))
    ∧ (getSearchState (clearOutputResults states ig) ig).searchTerm
        = (getSearchState states ig).searchTerm
    ∧ (getSearchState (clearOutputResults states ig) ig).caseSensitive
        = (getSearchState states ig).caseSensitive
    ∧ (getSearchState (clearOutputResults states ig) ig).wholeWords
        = (getSearchState states ig).wholeWords
    ∧ (getSearchState (clearOutputResults states ig) ig).categories
        = (getSearchState states ig).categories := by
  refine ⟨clearOutput_results_eq states ig h, ?_, ?_, ?_, ?_⟩ <;>
    simp only [clearOutputResults] <;> rw [getSearchState_save]

/-- C6, witness at a concrete stored state with mixed categories. -/
theorem c6_invalidate_output_witness :
    (∀ r ∈ (getSearchState statesW ["p"]).results, validCategory r.category = true)
    ∧ (getSearchState (clearOutputResults statesW ["p"]) ["p"]).results
        = [frW "fsh" 1, frW "inputPages" 3] := by
  have h := c6_invalidate_output statesW ["p"] (by decide)
  refine ⟨by decide, ?_⟩
  rw [h.1]
  decide

/-- C7: an empty or all-whitespace term short-circuits to exactly the record
with empty results, zero total and a null error, for every filesystem,
project root and option set. -/
theorem c7_blank_term (fs : FS) (cur : Option FsPath) (ig : FsPath)
    (term : String) (opts : SearchOptions) (h : term = "" ∨ jsTrim term = "") :
    performSearch fs cur ig term opts
      = { results := [], totalMatches := 0, error := none, truncated := none } :=
  performSearch_blank fs cur ig term opts h

/-- C7, witness at the all-whitespace term of the spec scenario. -/
theorem c7_blank_term_witness :
    (("   " : String) = "" ∨ jsTrim "   " = "")
    ∧ performSearch fsC2 none [] "   " optsPages
        = { results := [], totalMatches := 0, error := none, truncated := none } :=
  ⟨Or.inr (by decide), c7_blank_term fsC2 none [] "   " optsPages (Or.inr (by decide))⟩

/-- C8: the claimed ranking fails on the code.  Both fixture files' base
names literally contain the term "ab" (third and second conjunct), so they
are in the same name-match tier and the claim orders the 5-line file first;
but the comparator calls `pattern.test` on a global-flag regex, whose
`lastIndex` state makes the second test of a comparison start mid-string, so
the code returns the 2-line file first. -/
theorem c8_sort_misorders :
    ((performSearch fsC8 none [] "ab" optsPages).results.map
      (fun r => (r.fileName, r.«matches».length))) = [("ab.ce", 2), ("ab.cd", 5)]
    ∧ litOccursAt true "ab".data "ab.cd".data 0 = true
    ∧ litOccursAt true "ab".data "ab.ce".data 0 = true := by
  refine ⟨by decide, by decide, by decide⟩

/-- C9: the category resolver returns exactly the section 4.2 table rows for
the category, filtered to locations whose path exists, and the empty list
(not an error) when none of them exist. -/
theorem c9_resolver_matches_table (fs : FS) (ig : FsPath) (cat : String) :
    getCategoryPaths fs ig cat
      = (specCategoryLocations fs ig cat).filter (fun c => existsSync fs c.path)
    ∧ ((∀ c ∈ specCategoryLocations fs ig cat, existsSync fs c.path = false) →
        getCategoryPaths fs ig cat = []) := by
  have h1 : getCategoryPaths fs ig cat
      = (specCategoryLocations fs ig cat).filter (fun c => existsSync fs c.path) := rfl
  refine ⟨h1, fun hall => ?_⟩
  rw [h1]
  exact List.filter_eq_nil_iff.mpr (fun c hc => by simp [hall c hc])

/-- C9, witness: a project root that does not exist has no surviving fsh
locations, and the resolver returns the empty list. -/
theorem c9_resolver_matches_table_witness :
    (∀ c ∈ specCategoryLocations fsC2 ["nope"] "fsh", existsSync fsC2 c.path = false)
    ∧ getCategoryPaths fsC2 ["nope"] "fsh" = [] := by
  have h := c9_resolver_matches_table fsC2 ["nope"] "fsh"
  exact ⟨by decide, h.2 (by decide)⟩

/-- C10: the returned record lacks the `truncated` field exactly on the
short-circuit (blank term) and error-handler returns; every successful
non-blank search carries it. -/
theorem c10_truncated_presence (fs : FS) (cur : Option FsPath) (ig : FsPath)
    (term : String) (opts : SearchOptions) :
    ((performSearch fs cur ig term opts).truncated = none
      ↔ (term = "" ∨ jsTrim term = "" ∨ (performSearch fs cur ig term opts).error ≠ none)) := by
  by_cases hb : term = "" ∨ jsTrim term = ""
  · rw [performSearch_blank fs cur ig term opts hb]
    simp only
    constructor
    · intro _
      rcases hb with hb | hb
      · exact Or.inl hb
      · exact Or.inr (Or.inl hb)
    · intro _
      trivial
  · rw [performSearch_success fs cur ig term opts hb]
    push_neg at hb
    simp [hb.1, hb.2]

end IGSearch
